import Mathlib

/-!
Shallow embedding of the `xid` package (`id.go`): a 12-byte globally unique
identifier with a 20-character base32-hex text form, plus its generator,
concurrency-counter variants and persistence adapters.

Go bytes are modelled as `Nat` values; every Go byte-typed shift-left is
followed by `% 256` (Go bytes wrap modulo 256), right shifts and masks need
no wrap.  Fallible operations return `Option`/flags.  Randomness and the
shared atomic counter are passed explicitly.
-/

namespace Xid

/-- `encoding` stores a custom version of the base32 encoding with lower
case letters (`id.go` line 66). -/
def encoding : String := "0123456789abcdefghijklmnopqrstuv"

/-- The bytes of `encoding` (Go string indexing yields bytes; all characters
are ASCII, so the byte at index `i` is the code of the `i`-th character). -/
def encBytes : List Nat := encoding.toList.map Char.toNat

/-- `encoding[i]` as in the Go source: the byte of `encoding` at index `i`. -/
def encByte (i : Nat) : Nat := encBytes.getD i 0

/-- The decoding map `dec`: the `init` function fills all 256 entries with
`0xFF`, then sets `dec[encoding[i]] = i` for `i < 32`.  As a function of the
byte `c`, the final table value is the last `i` with `encoding[i] = c`,
else `0xFF`. -/
def dec (c : Nat) : Nat :=
  (List.range 32).foldl (fun d i => if encByte i = c then i else d) 0xFF

/-- `ID` represents a unique request id: a `[12]byte` Go array, one field
per byte. -/
structure ID where
  b0 : Nat
  b1 : Nat
  b2 : Nat
  b3 : Nat
  b4 : Nat
  b5 : Nat
  b6 : Nat
  b7 : Nat
  b8 : Nat
  b9 : Nat
  b10 : Nat
  b11 : Nat
deriving DecidableEq, Repr

/-- The 12 bytes of an id, in order (`id[:]`). -/
def idBytes (id : ID) : List Nat :=
  [id.b0, id.b1, id.b2, id.b3, id.b4, id.b5, id.b6, id.b7, id.b8, id.b9,
   id.b10, id.b11]

/-- An `ID` actually consists of bytes: every field is `< 256`. -/
def validBytes (id : ID) : Prop :=
  id.b0 < 256 ∧ id.b1 < 256 ∧ id.b2 < 256 ∧ id.b3 < 256 ∧ id.b4 < 256 ∧
  id.b5 < 256 ∧ id.b6 < 256 ∧ id.b7 < 256 ∧ id.b8 < 256 ∧ id.b9 < 256 ∧
  id.b10 < 256 ∧ id.b11 < 256

instance (id : ID) : Decidable (validBytes id) := by
  unfold validBytes; infer_instance

/-- `copy(id[:], val[:])` for a 12-byte slice `val`: builds the id from the
first 12 entries of the list. -/
def fromList (b : List Nat) : ID :=
  ⟨b.getD 0 0, b.getD 1 0, b.getD 2 0, b.getD 3 0, b.getD 4 0, b.getD 5 0,
   b.getD 6 0, b.getD 7 0, b.getD 8 0, b.getD 9 0, b.getD 10 0, b.getD 11 0⟩

/-- `encode` (`id.go` lines 200-221): unrolled base32, writing 20 output
bytes.  Each Go line `dst[i] = encoding[e]` becomes the list entry
`encByte e`; Go byte shift-lefts wrap modulo 256. -/
def encode (id : ID) : List Nat :=
  [encByte (id.b0 >>> 3),
   encByte (((id.b1 >>> 6) &&& 0x1F) ||| (((id.b0 <<< 2) % 256) &&& 0x1F)),
   encByte ((id.b1 >>> 1) &&& 0x1F),
   encByte (((id.b2 >>> 4) &&& 0x1F) ||| (((id.b1 <<< 4) % 256) &&& 0x1F)),
   encByte ((id.b3 >>> 7) ||| (((id.b2 <<< 1) % 256) &&& 0x1F)),
   encByte ((id.b3 >>> 2) &&& 0x1F),
   encByte ((id.b4 >>> 5) ||| (((id.b3 <<< 3) % 256) &&& 0x1F)),
   encByte (id.b4 &&& 0x1F),
   encByte (id.b5 >>> 3),
   encByte (((id.b6 >>> 6) &&& 0x1F) ||| (((id.b5 <<< 2) % 256) &&& 0x1F)),
   encByte ((id.b6 >>> 1) &&& 0x1F),
   encByte (((id.b7 >>> 4) &&& 0x1F) ||| (((id.b6 <<< 4) % 256) &&& 0x1F)),
   encByte ((id.b8 >>> 7) ||| (((id.b7 <<< 1) % 256) &&& 0x1F)),
   encByte ((id.b8 >>> 2) &&& 0x1F),
   encByte ((id.b9 >>> 5) ||| (((id.b8 <<< 3) % 256) &&& 0x1F)),
   encByte (id.b9 &&& 0x1F),
   encByte (id.b10 >>> 3),
   encByte (((id.b11 >>> 6) &&& 0x1F) ||| (((id.b10 <<< 2) % 256) &&& 0x1F)),
   encByte ((id.b11 >>> 1) &&& 0x1F),
   encByte (((id.b11 <<< 4) % 256) &&& 0x1F)]

/-- The 20 five-bit symbol values of `encode`, before the table lookup
(`encode id = (symbols id).map encByte` by definition). -/
def symbols (id : ID) : List Nat :=
  [id.b0 >>> 3,
   ((id.b1 >>> 6) &&& 0x1F) ||| (((id.b0 <<< 2) % 256) &&& 0x1F),
   (id.b1 >>> 1) &&& 0x1F,
   ((id.b2 >>> 4) &&& 0x1F) ||| (((id.b1 <<< 4) % 256) &&& 0x1F),
   (id.b3 >>> 7) ||| (((id.b2 <<< 1) % 256) &&& 0x1F),
   (id.b3 >>> 2) &&& 0x1F,
   (id.b4 >>> 5) ||| (((id.b3 <<< 3) % 256) &&& 0x1F),
   id.b4 &&& 0x1F,
   id.b5 >>> 3,
   ((id.b6 >>> 6) &&& 0x1F) ||| (((id.b5 <<< 2) % 256) &&& 0x1F),
   (id.b6 >>> 1) &&& 0x1F,
   ((id.b7 >>> 4) &&& 0x1F) ||| (((id.b6 <<< 4) % 256) &&& 0x1F),
   (id.b8 >>> 7) ||| (((id.b7 <<< 1) % 256) &&& 0x1F),
   (id.b8 >>> 2) &&& 0x1F,
   (id.b9 >>> 5) ||| (((id.b8 <<< 3) % 256) &&& 0x1F),
   id.b9 &&& 0x1F,
   id.b10 >>> 3,
   ((id.b11 >>> 6) &&& 0x1F) ||| (((id.b10 <<< 2) % 256) &&& 0x1F),
   (id.b11 >>> 1) &&& 0x1F,
   ((id.b11 <<< 4) % 256) &&& 0x1F]

/-- `decode` (`id.go` lines 238-251): unrolled base32 decoding of a
20-byte source.  `src[i]` is modelled as `src.getD i 0` (the caller,
`UnmarshalText`, guarantees length 20); Go byte shift-lefts wrap
modulo 256. -/
def decode (src : List Nat) : ID :=
  ⟨((dec (src.getD 0 0) <<< 3) % 256) ||| (dec (src.getD 1 0) >>> 2),
   ((dec (src.getD 1 0) <<< 6) % 256) ||| ((dec (src.getD 2 0) <<< 1) % 256) |||
     (dec (src.getD 3 0) >>> 4),
   ((dec (src.getD 3 0) <<< 4) % 256) ||| (dec (src.getD 4 0) >>> 1),
   ((dec (src.getD 4 0) <<< 7) % 256) ||| ((dec (src.getD 5 0) <<< 2) % 256) |||
     (dec (src.getD 6 0) >>> 3),
   ((dec (src.getD 6 0) <<< 5) % 256) ||| dec (src.getD 7 0),
   ((dec (src.getD 8 0) <<< 3) % 256) ||| (dec (src.getD 9 0) >>> 2),
   ((dec (src.getD 9 0) <<< 6) % 256) ||| ((dec (src.getD 10 0) <<< 1) % 256) |||
     (dec (src.getD 11 0) >>> 4),
   ((dec (src.getD 11 0) <<< 4) % 256) ||| (dec (src.getD 12 0) >>> 1),
   ((dec (src.getD 12 0) <<< 7) % 256) ||| ((dec (src.getD 13 0) <<< 2) % 256) |||
     (dec (src.getD 14 0) >>> 3),
   ((dec (src.getD 14 0) <<< 5) % 256) ||| dec (src.getD 15 0),
   ((dec (src.getD 16 0) <<< 3) % 256) ||| (dec (src.getD 17 0) >>> 2),
   ((dec (src.getD 17 0) <<< 6) % 256) ||| ((dec (src.getD 18 0) <<< 1) % 256) |||
     (dec (src.getD 19 0) >>> 4)⟩

/-- `UnmarshalText` (`id.go` lines 224-235): returns the (possibly updated)
receiver and an error flag.  It rejects when the length is not 20 or some
byte maps to `0xFF` in `dec`; only on success does it call `decode`. -/
def UnmarshalText (id : ID) (text : List Nat) : ID × Bool :=
  if text.length ≠ 20 then (id, true)
  else if text.any (fun c => dec c == 0xFF) then (id, true)
  else (decode text, false)

/-- `String` (`id.go` lines 186-190): encode and view as a string. -/
def IDString (id : ID) : String :=
  String.mk ((encode id).map (fun c => Char.ofNat c))

/-- The all-zero identifier (12 zero bytes). -/
def zeroID : ID := ⟨0, 0, 0, 0, 0, 0, 0, 0, 0, 0, 0, 0⟩

/-- `NewFromTime` (`id.go` lines 100-113): `PutUint64` writes the 64-bit
value `uint64(t.UnixNano())` big-endian into bytes 0..8, then the random
read overwrites bytes 6..12.  `nanos` models `t.UnixNano()` (as the
wrapped `uint64`), `rand` the six bytes delivered by `rand.Reader`. -/
def NewFromTime (nanos : Nat) (rand : List Nat) : ID :=
  ⟨((nanos % 2 ^ 64) >>> 56) % 256, ((nanos % 2 ^ 64) >>> 48) % 256,
   ((nanos % 2 ^ 64) >>> 40) % 256, ((nanos % 2 ^ 64) >>> 32) % 256,
   ((nanos % 2 ^ 64) >>> 24) % 256, ((nanos % 2 ^ 64) >>> 16) % 256,
   rand.getD 0 0, rand.getD 1 0, rand.getD 2 0,
   rand.getD 3 0, rand.getD 4 0, rand.getD 5 0⟩

/-- `Time` (`id.go` lines 255-261): copies bytes 0..6 into the first six
bytes of an 8-byte zero buffer and reads it back as a big-endian 64-bit
value (bytes 6 and 7 of the buffer stay zero). -/
def Time (id : ID) : Nat :=
  (id.b0 <<< 56) ||| (id.b1 <<< 48) ||| (id.b2 <<< 40) ||| (id.b3 <<< 32) |||
    (id.b4 <<< 24) ||| (id.b5 <<< 16)

/-- The `Concurrency` enumeration (`id.go` lines 51-58). -/
inductive Concurrency where
  | NANO
  | LOW
  | MEDIUM
  | HIGH
deriving DecidableEq, Repr

/-- `ApplyNanoConcurrence` (`id.go` lines 138-141).  Go passes the `[12]byte`
array by value, so the function mutates its own copy; the model returns
(the callee's final copy, the new shared counter). -/
def ApplyNanoConcurrence (id : ID) (atomicCount : Nat) : ID × Nat :=
  let adder := (atomicCount + 1) % 2 ^ 64
  (⟨id.b0, id.b1, id.b2, id.b3, id.b4, id.b5,
    (((adder <<< 4) % 256) &&& 0xF0) ||| (id.b6 &&& 0xF),
    id.b7, id.b8, id.b9, id.b10, id.b11⟩, adder)

/-- `ApplyLowConcurrence` (`id.go` lines 145-148).  Same by-value calling
convention as `ApplyNanoConcurrence`. -/
def ApplyLowConcurrence (id : ID) (atomicCount : Nat) : ID × Nat :=
  let adder := (atomicCount + 1) % 2 ^ 64
  (⟨id.b0, id.b1, id.b2, id.b3, id.b4, id.b5, adder % 256,
    id.b7, id.b8, id.b9, id.b10, id.b11⟩, adder)

/-- `ApplyMediumConcurrence` (`id.go` lines 152-156). -/
def ApplyMediumConcurrence (id : ID) (atomicCount : Nat) : ID × Nat :=
  let adder := (atomicCount + 1) % 2 ^ 64
  (⟨id.b0, id.b1, id.b2, id.b3, id.b4, id.b5, (adder >>> 8) % 256,
    adder % 256, id.b8, id.b9, id.b10, id.b11⟩, adder)

/-- `ApplyHighConcurrence` (`id.go` lines 160-165). -/
def ApplyHighConcurrence (id : ID) (atomicCount : Nat) : ID × Nat :=
  let adder := (atomicCount + 1) % 2 ^ 64
  (⟨id.b0, id.b1, id.b2, id.b3, id.b4, id.b5, (adder >>> 16) % 256,
    (adder >>> 8) % 256, adder % 256, id.b9, id.b10, id.b11⟩, adder)

/-- `NewWithConcurrence` (`id.go` lines 115-134).  `id` is a Go array, a
value type: each `ApplyXConcurrence(id)` call receives a copy, so its
mutation is lost and only the counter increment persists; the function
returns the unmodified `id`. -/
def NewWithConcurrence (currencyLevel : Concurrency) (nanos : Nat)
    (rand : List Nat) (atomicCount : Nat) : ID × Nat :=
  let id := NewFromTime nanos rand
  match currencyLevel with
  | .NANO => (id, (ApplyNanoConcurrence id atomicCount).2)
  | .LOW => (id, (ApplyLowConcurrence id atomicCount).2)
  | .MEDIUM => (id, (ApplyMediumConcurrence id atomicCount).2)
  | .HIGH => (id, (ApplyHighConcurrence id atomicCount).2)

/-- `randUInt64` (`id.go` lines 168-176): allocates `b := make([]byte, 2)`,
fills it from the reader, then reads `b[0] .. b[3]`.  Slice indexing is
modelled fallibly (`none` = index out of range panic). -/
def randUInt64 (rand : List Nat) : Option Nat := do
  let b : List Nat := [rand.getD 0 0, rand.getD 1 0]
  let x0 ← b[0]?
  let x1 ← b[1]?
  let x2 ← b[2]?
  let x3 ← b[3]?
  return (x0 <<< 32) ||| (x1 <<< 16) ||| (x2 <<< 8) ||| x3

/-- A Go `interface{}` value as handed to `Scan`: a string, a byte slice,
or a value of any other type (identified by its type name). -/
inductive GoValue where
  | str (s : List Nat)
  | bytes (b : List Nat)
  | other (ty : String)
deriving DecidableEq, Repr

/-- The errors `Scan` can produce: `ErrInvalidID`, the
"scanning byte slice invalid length: %d" error (carrying the length) and
the "scanning unsupported type: %T" error (carrying the type name). -/
inductive ScanError where
  | errInvalidID
  | invalidByteLength (n : Nat)
  | unsupportedType (ty : String)
deriving DecidableEq, Repr

/-- `Scan` (`id.go` lines 277-290): strings go through `UnmarshalText`,
byte slices must have length 12 and are copied, anything else is an
unsupported type. -/
def Scan (id : ID) (value : GoValue) : ID × Option ScanError :=
  match value with
  | .str s =>
      let r := UnmarshalText id s
      (r.1, if r.2 then some .errInvalidID else none)
  | .bytes b =>
      if b.length ≠ 12 then (id, some (.invalidByteLength b.length))
      else (fromList b, none)
  | .other ty => (id, some (.unsupportedType ty))

/-- `Value` (`id.go` lines 272-274): returns `id[:]` and a nil error. -/
def Value (id : ID) : List Nat × Option ScanError := (idBytes id, none)

/-- The big-endian value of a fixed-base digit list (most significant
digit first); with `B = 256` this reads a byte string as a number, with
`B = 32` a 5-bit-symbol string. -/
def val (B : Nat) : List Nat → Nat
  | [] => 0
  | d :: ds => d * B ^ ds.length + val B ds

/-- The claimed reading of the timestamp region: bytes 0..6 as a
big-endian 48-bit integer. -/
def beVal48 (id : ID) : Nat :=
  ((((id.b0 * 256 + id.b1) * 256 + id.b2) * 256 + id.b3) * 256 + id.b4) *
    256 + id.b5

/-! ### Arithmetic helpers -/

/-- The `0x1F` mask is reduction modulo 32. -/
theorem and_mask_eq_mod (x : Nat) : x &&& 31 = x % 32 := by
  have h := Nat.and_pow_two_sub_one_eq_mod x 5
  norm_num at h
  exact h

/-- A bitwise or of disjoint parts is addition (low part on the right). -/
theorem or_eq_add_right (n a b : Nat) (ha : a % 2 ^ n = 0) (hb : b < 2 ^ n) :
    a ||| b = a + b := by
  have h : 2 ^ n * (a / 2 ^ n) = a := by
    rw [Nat.mul_comm]
    exact Nat.div_mul_cancel (Nat.dvd_of_mod_eq_zero ha)
  rw [← h]
  exact (Nat.mul_add_lt_is_or hb _).symm

/-- A bitwise or of disjoint parts is addition (low part on the left). -/
theorem or_eq_add_left (n a b : Nat) (ha : a < 2 ^ n) (hb : b % 2 ^ n = 0) :
    a ||| b = b + a := by
  rw [Nat.lor_comm]
  exact or_eq_add_right n b a hb ha

/-- A bitwise or of two values below `2 ^ n` stays below `2 ^ n`. -/
theorem lor_lt_two_pow {n x y : Nat} (hx : x < 2 ^ n) (hy : y < 2 ^ n) :
    x ||| y < 2 ^ n := by
  apply Nat.lt_pow_two_of_testBit
  intro i hi
  rw [Nat.testBit_lor,
    Nat.testBit_lt_two_pow (Nat.lt_of_lt_of_le hx (Nat.pow_le_pow_right (by omega) hi)),
    Nat.testBit_lt_two_pow (Nat.lt_of_lt_of_le hy (Nat.pow_le_pow_right (by omega) hi))]
  rfl

/-- The decoding table inverts the encoding table on the 32 symbol values. -/
theorem dec_encByte {v : Nat} (h : v < 32) : dec (encByte v) = v := by
  have hv : ∀ w : Fin 32, dec (encByte w.val) = w.val := by decide
  exact hv ⟨v, h⟩


/-! ### Per-byte round-trip lemmas

Each lemma states that one byte of `decode (encode id)` recovers the
corresponding input byte; the shapes repeat across the three 5-byte /
8-symbol groups of the layout. -/

theorem rt_shape0 (a b : Nat) (ha : a < 256) (hb : b < 256) :
    ((dec (encByte (a >>> 3)) <<< 3) % 256) |||
      (dec (encByte (((b >>> 6) &&& 31) ||| (((a <<< 2) % 256) &&& 31))) >>> 2) = a := by
  rw [dec_encByte (by rw [Nat.shiftRight_eq_div_pow]; omega),
      dec_encByte (lor_lt_two_pow (n := 5)
        (by rw [Nat.shiftRight_eq_div_pow, and_mask_eq_mod]; omega)
        (by rw [and_mask_eq_mod]; omega))]
  simp only [Nat.shiftLeft_eq, Nat.shiftRight_eq_div_pow, and_mask_eq_mod]
  rw [or_eq_add_left 2 (b / 2 ^ 6 % 32) (a * 2 ^ 2 % 256 % 32) (by omega) (by omega)]
  rw [or_eq_add_right 3 (a / 2 ^ 3 * 2 ^ 3 % 256)
        ((a * 2 ^ 2 % 256 % 32 + b / 2 ^ 6 % 32) / 2 ^ 2) (by omega) (by omega)]
  omega

theorem rt_shape1 (a b c : Nat) (ha : a < 256) (hb : b < 256) (hc : c < 256) :
    ((dec (encByte (((b >>> 6) &&& 31) ||| (((a <<< 2) % 256) &&& 31))) <<< 6) % 256) |||
      ((dec (encByte ((b >>> 1) &&& 31)) <<< 1) % 256) |||
      (dec (encByte (((c >>> 4) &&& 31) ||| (((b <<< 4) % 256) &&& 31))) >>> 4) = b := by
  rw [dec_encByte (lor_lt_two_pow (n := 5)
        (by rw [Nat.shiftRight_eq_div_pow, and_mask_eq_mod]; omega)
        (by rw [and_mask_eq_mod]; omega)),
      dec_encByte (by rw [Nat.shiftRight_eq_div_pow, and_mask_eq_mod]; omega),
      dec_encByte (lor_lt_two_pow (n := 5)
        (by rw [Nat.shiftRight_eq_div_pow, and_mask_eq_mod]; omega)
        (by rw [and_mask_eq_mod]; omega))]
  simp only [Nat.shiftLeft_eq, Nat.shiftRight_eq_div_pow, and_mask_eq_mod]
  rw [or_eq_add_left 2 (b / 2 ^ 6 % 32) (a * 2 ^ 2 % 256 % 32) (by omega) (by omega)]
  rw [or_eq_add_left 4 (c / 2 ^ 4 % 32) (b * 2 ^ 4 % 256 % 32) (by omega) (by omega)]
  rw [or_eq_add_right 6 ((a * 2 ^ 2 % 256 % 32 + b / 2 ^ 6 % 32) * 2 ^ 6 % 256)
        (b / 2 ^ 1 % 32 * 2 ^ 1 % 256) (by omega) (by omega)]
  rw [or_eq_add_right 1
        ((a * 2 ^ 2 % 256 % 32 + b / 2 ^ 6 % 32) * 2 ^ 6 % 256 + b / 2 ^ 1 % 32 * 2 ^ 1 % 256)
        ((b * 2 ^ 4 % 256 % 32 + c / 2 ^ 4 % 32) / 2 ^ 4) (by omega) (by omega)]
  omega

theorem rt_shape2 (b c d : Nat) (hb : b < 256) (hc : c < 256) (hd : d < 256) :
    ((dec (encByte (((c >>> 4) &&& 31) ||| (((b <<< 4) % 256) &&& 31))) <<< 4) % 256) |||
      (dec (encByte ((d >>> 7) ||| (((c <<< 1) % 256) &&& 31))) >>> 1) = c := by
  rw [dec_encByte (lor_lt_two_pow (n := 5)
        (by rw [Nat.shiftRight_eq_div_pow, and_mask_eq_mod]; omega)
        (by rw [and_mask_eq_mod]; omega)),
      dec_encByte (lor_lt_two_pow (n := 5)
        (by rw [Nat.shiftRight_eq_div_pow]; omega)
        (by rw [and_mask_eq_mod]; omega))]
  simp only [Nat.shiftLeft_eq, Nat.shiftRight_eq_div_pow, and_mask_eq_mod]
  rw [or_eq_add_left 4 (c / 2 ^ 4 % 32) (b * 2 ^ 4 % 256 % 32) (by omega) (by omega)]
  rw [or_eq_add_left 1 (d / 2 ^ 7) (c * 2 ^ 1 % 256 % 32) (by omega) (by omega)]
  rw [or_eq_add_right 4 ((b * 2 ^ 4 % 256 % 32 + c / 2 ^ 4 % 32) * 2 ^ 4 % 256)
        ((c * 2 ^ 1 % 256 % 32 + d / 2 ^ 7) / 2 ^ 1) (by omega) (by omega)]
  omega

theorem rt_shape3 (c d e : Nat) (hc : c < 256) (hd : d < 256) (he : e < 256) :
    ((dec (encByte ((d >>> 7) ||| (((c <<< 1) % 256) &&& 31))) <<< 7) % 256) |||
      ((dec (encByte ((d >>> 2) &&& 31)) <<< 2) % 256) |||
      (dec (encByte ((e >>> 5) ||| (((d <<< 3) % 256) &&& 31))) >>> 3) = d := by
  rw [dec_encByte (lor_lt_two_pow (n := 5)
        (by rw [Nat.shiftRight_eq_div_pow]; omega)
        (by rw [and_mask_eq_mod]; omega)),
      dec_encByte (by rw [Nat.shiftRight_eq_div_pow, and_mask_eq_mod]; omega),
      dec_encByte (lor_lt_two_pow (n := 5)
        (by rw [Nat.shiftRight_eq_div_pow]; omega)
        (by rw [and_mask_eq_mod]; omega))]
  simp only [Nat.shiftLeft_eq, Nat.shiftRight_eq_div_pow, and_mask_eq_mod]
  rw [or_eq_add_left 1 (d / 2 ^ 7) (c * 2 ^ 1 % 256 % 32) (by omega) (by omega)]
  rw [or_eq_add_left 3 (e / 2 ^ 5) (d * 2 ^ 3 % 256 % 32) (by omega) (by omega)]
  rw [or_eq_add_right 7 ((c * 2 ^ 1 % 256 % 32 + d / 2 ^ 7) * 2 ^ 7 % 256)
        (d / 2 ^ 2 % 32 * 2 ^ 2 % 256) (by omega) (by omega)]
  rw [or_eq_add_right 2
        ((c * 2 ^ 1 % 256 % 32 + d / 2 ^ 7) * 2 ^ 7 % 256 + d / 2 ^ 2 % 32 * 2 ^ 2 % 256)
        ((d * 2 ^ 3 % 256 % 32 + e / 2 ^ 5) / 2 ^ 3) (by omega) (by omega)]
  omega

theorem rt_shape4 (d e : Nat) (hd : d < 256) (he : e < 256) :
    ((dec (encByte ((e >>> 5) ||| (((d <<< 3) % 256) &&& 31))) <<< 5) % 256) |||
      dec (encByte (e &&& 31)) = e := by
  rw [dec_encByte (lor_lt_two_pow (n := 5)
        (by rw [Nat.shiftRight_eq_div_pow]; omega)
        (by rw [and_mask_eq_mod]; omega)),
      dec_encByte (by rw [and_mask_eq_mod]; omega)]
  simp only [Nat.shiftLeft_eq, Nat.shiftRight_eq_div_pow, and_mask_eq_mod]
  rw [or_eq_add_left 3 (e / 2 ^ 5) (d * 2 ^ 3 % 256 % 32) (by omega) (by omega)]
  rw [or_eq_add_right 5 ((d * 2 ^ 3 % 256 % 32 + e / 2 ^ 5) * 2 ^ 5 % 256) (e % 32)
        (by omega) (by omega)]
  omega

theorem rt_shape5 (k l : Nat) (hk : k < 256) (hl : l < 256) :
    ((dec (encByte (((l >>> 6) &&& 31) ||| (((k <<< 2) % 256) &&& 31))) <<< 6) % 256) |||
      ((dec (encByte ((l >>> 1) &&& 31)) <<< 1) % 256) |||
      (dec (encByte (((l <<< 4) % 256) &&& 31)) >>> 4) = l := by
  rw [dec_encByte (lor_lt_two_pow (n := 5)
        (by rw [Nat.shiftRight_eq_div_pow, and_mask_eq_mod]; omega)
        (by rw [and_mask_eq_mod]; omega)),
      dec_encByte (by rw [Nat.shiftRight_eq_div_pow, and_mask_eq_mod]; omega),
      dec_encByte (by rw [and_mask_eq_mod]; omega)]
  simp only [Nat.shiftLeft_eq, Nat.shiftRight_eq_div_pow, and_mask_eq_mod]
  rw [or_eq_add_left 2 (l / 2 ^ 6 % 32) (k * 2 ^ 2 % 256 % 32) (by omega) (by omega)]
  rw [or_eq_add_right 6 ((k * 2 ^ 2 % 256 % 32 + l / 2 ^ 6 % 32) * 2 ^ 6 % 256)
        (l / 2 ^ 1 % 32 * 2 ^ 1 % 256) (by omega) (by omega)]
  rw [or_eq_add_right 1
        ((k * 2 ^ 2 % 256 % 32 + l / 2 ^ 6 % 32) * 2 ^ 6 % 256 + l / 2 ^ 1 % 32 * 2 ^ 1 % 256)
        (l * 2 ^ 4 % 256 % 32 / 2 ^ 4) (by omega) (by omega)]
  omega


/-! ### Claim theorems -/

/-- C1: for every 12-byte identifier, decoding the 20-character string
produced by `encode` yields the identifier back:
`decode (encode id) = id` for all byte-valued ids. -/
theorem decode_encode (id : ID) (h : validBytes id) : decode (encode id) = id := by
  obtain ⟨hv0, hv1, hv2, hv3, hv4, hv5, hv6, hv7, hv8, hv9, hv10, hv11⟩ := h
  cases id with
  | mk b0 b1 b2 b3 b4 b5 b6 b7 b8 b9 b10 b11 =>
    have hrfl : decode (encode (ID.mk b0 b1 b2 b3 b4 b5 b6 b7 b8 b9 b10 b11)) =
      ID.mk
        (((dec (encByte (b0 >>> 3)) <<< 3) % 256) |||
        (dec (encByte (((b1 >>> 6) &&& 31) ||| (((b0 <<< 2) % 256) &&& 31))) >>> 2))
        (((dec (encByte (((b1 >>> 6) &&& 31) ||| (((b0 <<< 2) % 256) &&& 31))) <<< 6) % 256) |||
        ((dec (encByte ((b1 >>> 1) &&& 31)) <<< 1) % 256) |||
        (dec (encByte (((b2 >>> 4) &&& 31) ||| (((b1 <<< 4) % 256) &&& 31))) >>> 4))
        (((dec (encByte (((b2 >>> 4) &&& 31) ||| (((b1 <<< 4) % 256) &&& 31))) <<< 4) % 256) |||
        (dec (encByte ((b3 >>> 7) ||| (((b2 <<< 1) % 256) &&& 31))) >>> 1))
        (((dec (encByte ((b3 >>> 7) ||| (((b2 <<< 1) % 256) &&& 31))) <<< 7) % 256) |||
        ((dec (encByte ((b3 >>> 2) &&& 31)) <<< 2) % 256) |||
        (dec (encByte ((b4 >>> 5) ||| (((b3 <<< 3) % 256) &&& 31))) >>> 3))
        (((dec (encByte ((b4 >>> 5) ||| (((b3 <<< 3) % 256) &&& 31))) <<< 5) % 256) |||
        dec (encByte (b4 &&& 31)))
        (((dec (encByte (b5 >>> 3)) <<< 3) % 256) |||
        (dec (encByte (((b6 >>> 6) &&& 31) ||| (((b5 <<< 2) % 256) &&& 31))) >>> 2))
        (((dec (encByte (((b6 >>> 6) &&& 31) ||| (((b5 <<< 2) % 256) &&& 31))) <<< 6) % 256) |||
        ((dec (encByte ((b6 >>> 1) &&& 31)) <<< 1) % 256) |||
        (dec (encByte (((b7 >>> 4) &&& 31) ||| (((b6 <<< 4) % 256) &&& 31))) >>> 4))
        (((dec (encByte (((b7 >>> 4) &&& 31) ||| (((b6 <<< 4) % 256) &&& 31))) <<< 4) % 256) |||
        (dec (encByte ((b8 >>> 7) ||| (((b7 <<< 1) % 256) &&& 31))) >>> 1))
        (((dec (encByte ((b8 >>> 7) ||| (((b7 <<< 1) % 256) &&& 31))) <<< 7) % 256) |||
        ((dec (encByte ((b8 >>> 2) &&& 31)) <<< 2) % 256) |||
        (dec (encByte ((b9 >>> 5) ||| (((b8 <<< 3) % 256) &&& 31))) >>> 3))
        (((dec (encByte ((b9 >>> 5) ||| (((b8 <<< 3) % 256) &&& 31))) <<< 5) % 256) |||
        dec (encByte (b9 &&& 31)))
        (((dec (encByte (b10 >>> 3)) <<< 3) % 256) |||
        (dec (encByte (((b11 >>> 6) &&& 31) ||| (((b10 <<< 2) % 256) &&& 31))) >>> 2))
        (((dec (encByte (((b11 >>> 6) &&& 31) ||| (((b10 <<< 2) % 256) &&& 31))) <<< 6) % 256) |||
        ((dec (encByte ((b11 >>> 1) &&& 31)) <<< 1) % 256) |||
        (dec (encByte (((b11 <<< 4) % 256) &&& 31)) >>> 4)) := rfl
    rw [hrfl, ID.mk.injEq]
    exact ⟨rt_shape0 b0 b1 hv0 hv1, rt_shape1 b0 b1 b2 hv0 hv1 hv2,
      rt_shape2 b1 b2 b3 hv1 hv2 hv3, rt_shape3 b2 b3 b4 hv2 hv3 hv4,
      rt_shape4 b3 b4 hv3 hv4, rt_shape0 b5 b6 hv5 hv6,
      rt_shape1 b5 b6 b7 hv5 hv6 hv7, rt_shape2 b6 b7 b8 hv6 hv7 hv8,
      rt_shape3 b7 b8 b9 hv7 hv8 hv9, rt_shape4 b8 b9 hv8 hv9,
      rt_shape0 b10 b11 hv10 hv11, rt_shape5 b10 b11 hv10 hv11⟩

/-- Witness for C1 at a concrete identifier. -/
theorem decode_encode_witness :
    validBytes ⟨0, 17, 42, 3, 250, 255, 7, 99, 128, 200, 254, 77⟩ ∧
      decode (encode ⟨0, 17, 42, 3, 250, 255, 7, 99, 128, 200, 254, 77⟩) =
        ⟨0, 17, 42, 3, 250, 255, 7, 99, 128, 200, 254, 77⟩ :=
  ⟨by decide, decode_encode ⟨0, 17, 42, 3, 250, 255, 7, 99, 128, 200, 254, 77⟩ (by decide)⟩


/-- C9: encoding the identifier consisting of 12 zero bytes yields exactly
the 20-character string of the character zero repeated 20 times. -/
theorem encode_zeroID :
    IDString zeroID = "00000000000000000000" ∧
      encode zeroID = List.replicate 20 48 := by decide

/-- C3 (the code violates the claimed safety): `randUInt64` allocates a
2-byte buffer but reads `b[2]` and `b[3]`, so for every random input the
computation hits an index out of range and the counter seeding cannot
complete. -/
theorem randUInt64_out_of_bounds (rand : List Nat) : randUInt64 rand = none := rfl

/-- C2 (the code violates the claim): `ApplyLowConcurrence` receives the
Go array by value, so `NewWithConcurrence LOW` returns the
`NewFromTime` id unchanged; byte 6 keeps its random value (here 7, not
the counter low bits 1), and two successive LOW creations with equal
timestamps and equal random bytes have equal byte-6 values. -/
theorem newWithConcurrence_low_keeps_random :
    (∀ nanos rand atomicCount,
        (NewWithConcurrence .LOW nanos rand atomicCount).1 = NewFromTime nanos rand) ∧
      (NewWithConcurrence .LOW 0 [7, 0, 0, 0, 0, 0] 0).1.b6 = 7 ∧
      (NewWithConcurrence .LOW 0 [7, 0, 0, 0, 0, 0]
          (NewWithConcurrence .LOW 0 [7, 0, 0, 0, 0, 0] 0).2).1.b6 = 7 ∧
      (NewWithConcurrence .LOW 0 [7, 0, 0, 0, 0, 0] 0).1.b6 ≠ (0 + 1) % 2 ^ 64 % 256 :=
  ⟨fun _ _ _ => rfl, by decide, by decide, by decide⟩

/-- C4 counterexample: at nanosecond timestamp 1, the claimed low-order
48-bit storage would put the value 1 into bytes 0..6, but the code stores
the high-order 48 bits, giving 0. -/
theorem newFromTime_not_low48 :
    beVal48 (NewFromTime 1 [0, 0, 0, 0, 0, 0]) ≠ 1 % 2 ^ 48 := by decide

/-- C4 (amended): `NewFromTime` stores into bytes 0..6, big-endian, the
high-order 48 bits of the 64-bit nanosecond value (the wrapped value
shifted right by 16 bits, not its low 48 bits) and fills bytes 6..12 with
the random bytes. -/
theorem newFromTime_stores_high48 (nanos : Nat) (rand : List Nat)
    (h : rand.length = 6) :
    beVal48 (NewFromTime nanos rand) = (nanos % 2 ^ 64) >>> 16 ∧
      (idBytes (NewFromTime nanos rand)).drop 6 = rand := by
  constructor
  · have key : ∀ v : Nat, v < 2 ^ 64 →
        ((((v / 2 ^ 56 % 256 * 256 + v / 2 ^ 48 % 256) * 256 + v / 2 ^ 40 % 256) * 256 +
          v / 2 ^ 32 % 256) * 256 + v / 2 ^ 24 % 256) * 256 + v / 2 ^ 16 % 256 =
          v / 2 ^ 16 := by
      intro v hv
      omega
    have h2 : beVal48 (NewFromTime nanos rand) =
        ((((nanos % 2 ^ 64 / 2 ^ 56 % 256 * 256 + nanos % 2 ^ 64 / 2 ^ 48 % 256) * 256 +
          nanos % 2 ^ 64 / 2 ^ 40 % 256) * 256 + nanos % 2 ^ 64 / 2 ^ 32 % 256) * 256 +
          nanos % 2 ^ 64 / 2 ^ 24 % 256) * 256 + nanos % 2 ^ 64 / 2 ^ 16 % 256 := by
      simp only [beVal48, NewFromTime, Nat.shiftRight_eq_div_pow]
    rw [h2, Nat.shiftRight_eq_div_pow]
    exact key _ (Nat.mod_lt _ (by norm_num))
  · rcases rand with _ | ⟨r0, _ | ⟨r1, _ | ⟨r2, _ | ⟨r3, _ | ⟨r4, _ | ⟨r5, tl⟩⟩⟩⟩⟩⟩ <;>
      simp_all [NewFromTime, idBytes, List.getD]

/-- Witness for C4's amended theorem at a concrete timestamp and random
bytes. -/
theorem newFromTime_stores_high48_witness :
    beVal48 (NewFromTime 3 [9, 8, 7, 6, 5, 4]) = (3 % 2 ^ 64) >>> 16 ∧
      (idBytes (NewFromTime 3 [9, 8, 7, 6, 5, 4])).drop 6 = [9, 8, 7, 6, 5, 4] :=
  newFromTime_stores_high48 3 [9, 8, 7, 6, 5, 4] (by decide)

/-- C5 counterexample: at nanosecond timestamp 1, the claim says `Time`
recovers `1 % 2 ^ 48 = 1`, but the code zeroes the low 16 bits and
returns 0. -/
theorem time_not_low48 :
    Time (NewFromTime 1 [0, 0, 0, 0, 0, 0]) ≠ 1 % 2 ^ 48 := by decide


/-- C5 (amended): for a nonnegative int64 timestamp, `Time` on a generated
identifier returns the timestamp with its low 16 bits zeroed (the high 48
bits of the 64-bit nanosecond value are preserved, not the low 48). -/
theorem time_newFromTime (nanos : Nat) (rand : List Nat) (h : nanos < 2 ^ 63) :
    Time (NewFromTime nanos rand) = nanos / 2 ^ 16 * 2 ^ 16 := by
  have hmod : nanos % 2 ^ 64 = nanos := Nat.mod_eq_of_lt (by omega)
  have h2 : Time (NewFromTime nanos rand) =
      ((((nanos / 2 ^ 56 % 256 * 2 ^ 56 ||| nanos / 2 ^ 48 % 256 * 2 ^ 48) |||
        nanos / 2 ^ 40 % 256 * 2 ^ 40) ||| nanos / 2 ^ 32 % 256 * 2 ^ 32) |||
        nanos / 2 ^ 24 % 256 * 2 ^ 24) ||| nanos / 2 ^ 16 % 256 * 2 ^ 16 := by
    simp only [Time, NewFromTime, Nat.shiftLeft_eq, Nat.shiftRight_eq_div_pow, hmod]
  rw [h2]
  rw [or_eq_add_right 56 (nanos / 2 ^ 56 % 256 * 2 ^ 56) (nanos / 2 ^ 48 % 256 * 2 ^ 48)
        (by omega) (by omega)]
  rw [or_eq_add_right 48
        (nanos / 2 ^ 56 % 256 * 2 ^ 56 + nanos / 2 ^ 48 % 256 * 2 ^ 48)
        (nanos / 2 ^ 40 % 256 * 2 ^ 40) (by omega) (by omega)]
  rw [or_eq_add_right 40
        (nanos / 2 ^ 56 % 256 * 2 ^ 56 + nanos / 2 ^ 48 % 256 * 2 ^ 48 +
          nanos / 2 ^ 40 % 256 * 2 ^ 40)
        (nanos / 2 ^ 32 % 256 * 2 ^ 32) (by omega) (by omega)]
  rw [or_eq_add_right 32
        (nanos / 2 ^ 56 % 256 * 2 ^ 56 + nanos / 2 ^ 48 % 256 * 2 ^ 48 +
          nanos / 2 ^ 40 % 256 * 2 ^ 40 + nanos / 2 ^ 32 % 256 * 2 ^ 32)
        (nanos / 2 ^ 24 % 256 * 2 ^ 24) (by omega) (by omega)]
  rw [or_eq_add_right 24
        (nanos / 2 ^ 56 % 256 * 2 ^ 56 + nanos / 2 ^ 48 % 256 * 2 ^ 48 +
          nanos / 2 ^ 40 % 256 * 2 ^ 40 + nanos / 2 ^ 32 % 256 * 2 ^ 32 +
          nanos / 2 ^ 24 % 256 * 2 ^ 24)
        (nanos / 2 ^ 16 % 256 * 2 ^ 16) (by omega) (by omega)]
  omega

/-- Witness for C5's amended theorem at a concrete timestamp. -/
theorem time_newFromTime_witness :
    Time (NewFromTime 123456789123 [9, 8, 7, 6, 5, 4]) =
      123456789123 / 2 ^ 16 * 2 ^ 16 :=
  time_newFromTime 123456789123 [9, 8, 7, 6, 5, 4] (by norm_num)

/-- A fold over indices none of which hits the store condition keeps its
initial value (the shape of the `dec` table construction). -/
theorem foldl_keep (c : Nat) : ∀ (l : List Nat), (∀ i ∈ l, encByte i ≠ c) → ∀ d : Nat,
    l.foldl (fun d i => if encByte i = c then i else d) d = d
  | [], _, _ => rfl
  | x :: xs, h, d => by
      rw [List.foldl_cons, if_neg (h x (List.mem_cons_self x xs))]
      exact foldl_keep c xs (fun i hi => h i (List.mem_cons_of_mem x hi)) d

/-- A byte maps to the sentinel `0xFF` in the decoding table exactly when
it is not in the alphabet. -/
theorem dec_eq_ff_iff (c : Nat) : dec c = 0xFF ↔ c ∉ encBytes := by
  constructor
  · intro h hc
    have hlen : encBytes.length = 32 := by decide
    have h32 : ∀ w : Fin 32, dec (encByte w.val) ≠ 0xFF := by decide
    obtain ⟨i, hi, hgi⟩ := List.getElem_of_mem hc
    have hd := h32 ⟨i, by omega⟩
    have henc : encByte i = c := by
      rw [encByte, List.getD_eq_getElem]
      · exact hgi
    rw [henc] at hd
    exact hd h
  · intro h
    unfold dec
    refine foldl_keep c (List.range 32) ?_ 0xFF
    intro i hi hic
    have hilt : i < 32 := List.mem_range.mp hi
    have hmem : ∀ w : Fin 32, encByte w.val ∈ encBytes := by decide
    exact h (hic ▸ hmem ⟨i, hilt⟩)

/-- `UnmarshalText` reports an error exactly for a wrong length or a byte
outside the alphabet. -/
theorem unmarshal_err_iff (id : ID) (text : List Nat) :
    (UnmarshalText id text).2 = true ↔
      text.length ≠ 20 ∨ ∃ c ∈ text, c ∉ encBytes := by
  have hany : text.any (fun c => dec c == 0xFF) = true ↔ ∃ c ∈ text, c ∉ encBytes := by
    simp only [List.any_eq_true, beq_iff_eq, dec_eq_ff_iff]
  unfold UnmarshalText
  split_ifs with h1 h2
  · exact ⟨fun _ => Or.inl h1, fun _ => rfl⟩
  · exact ⟨fun _ => Or.inr (hany.mp h2), fun _ => rfl⟩
  · constructor
    · intro hh
      simp at hh
    · rintro (hl | hex)
      · exact absurd hl h1
      · exact absurd (hany.mpr hex) h2

/-- On error, `UnmarshalText` leaves the receiver untouched. -/
theorem unmarshal_err_receiver (id : ID) (text : List Nat) :
    (UnmarshalText id text).2 = true → (UnmarshalText id text).1 = id := by
  unfold UnmarshalText
  split_ifs with h1 h2
  · intro _
    rfl
  · intro _
    rfl
  · intro hh
    simp at hh

/-- `UnmarshalText` succeeds exactly on well-formed text: length 20 and
every byte in the alphabet. -/
theorem unmarshal_ok_iff (id : ID) (text : List Nat) :
    (UnmarshalText id text).2 = false ↔
      text.length = 20 ∧ ∀ c ∈ text, c ∈ encBytes := by
  rw [Bool.eq_false_iff, Ne, unmarshal_err_iff]
  push_neg
  rfl

/-- C6: `UnmarshalText` returns the invalid-ID error if and only if the
input length is not 20 or some byte is outside the alphabet
`0123456789abcdefghijklmnopqrstuv`; whenever it errors, the receiver is
left completely unmodified. -/
theorem unmarshalText_error_contract (id : ID) (text : List Nat) :
    ((UnmarshalText id text).2 = true ↔
        text.length ≠ 20 ∨ ∃ c ∈ text, c ∉ encBytes) ∧
      ((UnmarshalText id text).2 = true → (UnmarshalText id text).1 = id) :=
  ⟨unmarshal_err_iff id text, unmarshal_err_receiver id text⟩

/-- Witness for C6 at a concrete invalid input. -/
theorem unmarshalText_error_contract_witness :
    (UnmarshalText zeroID [1, 2, 3]).1 = zeroID ∧
      (UnmarshalText zeroID [1, 2, 3]).2 = true :=
  ⟨(unmarshalText_error_contract zeroID [1, 2, 3]).2 (by decide),
   ((unmarshalText_error_contract zeroID [1, 2, 3]).1).mpr (Or.inl (by decide))⟩

/-- The string arm of `Scan` succeeds exactly on well-formed text. -/
theorem scan_str_ok (id : ID) (s : List Nat) :
    (Scan id (.str s)).2 = none ↔ s.length = 20 ∧ ∀ c ∈ s, c ∈ encBytes := by
  rw [← unmarshal_ok_iff id s]
  simp only [Scan]
  cases he : (UnmarshalText id s).2 with
  | false => simp [he]
  | true => simp [he]

/-- The byte-slice arm of `Scan` checks the length. -/
theorem scan_bytes_eq (id : ID) (b : List Nat) :
    (Scan id (.bytes b)).2 =
      if b.length ≠ 12 then some (.invalidByteLength b.length) else none := by
  simp only [Scan]
  split_ifs with h
  · rfl
  · rfl

/-- C8: `Scan` succeeds exactly on a string holding valid 20-character
text or a byte slice of length 12; other byte lengths and other types
are rejected with an error carrying the offending length or type name;
`Value` always returns the raw 12-byte form with a nil error. -/
theorem scan_value_contract (id : ID) (v : GoValue) :
    ((Scan id v).2 = none ↔
        (∃ s, v = .str s ∧ s.length = 20 ∧ ∀ c ∈ s, c ∈ encBytes) ∨
          (∃ b, v = .bytes b ∧ b.length = 12)) ∧
      (∀ b, v = .bytes b → b.length ≠ 12 →
          (Scan id v).2 = some (.invalidByteLength b.length)) ∧
      (∀ ty, v = .other ty → (Scan id v).2 = some (.unsupportedType ty)) ∧
      Value id = (idBytes id, none) := by
  refine ⟨?_, ?_, ?_, rfl⟩
  · cases v with
    | str s =>
        rw [scan_str_ok]
        constructor
        · intro h
          exact Or.inl ⟨s, rfl, h⟩
        · rintro (⟨s', hs', h20, hall⟩ | ⟨b, hb, hb12⟩)
          · injection hs' with h
            subst h
            exact ⟨h20, hall⟩
          · exact GoValue.noConfusion hb
    | bytes b =>
        rw [scan_bytes_eq]
        by_cases hb12 : b.length = 12
        · rw [if_neg (by simp [hb12])]
          constructor
          · intro _
            exact Or.inr ⟨b, rfl, hb12⟩
          · intro _
            rfl
        · rw [if_pos hb12]
          constructor
          · intro hh
            exact absurd hh (by simp)
          · rintro (⟨s, hs, _, _⟩ | ⟨b', hb', h12⟩)
            · exact GoValue.noConfusion hs
            · injection hb' with h
              subst h
              exact absurd h12 hb12
    | other ty =>
        constructor
        · intro hh
          simp [Scan] at hh
        · rintro (⟨s, hs, _, _⟩ | ⟨b, hb, _⟩)
          · exact GoValue.noConfusion hs
          · exact GoValue.noConfusion hb
  · intro b hb h12
    subst hb
    rw [scan_bytes_eq, if_pos h12]
  · intro ty hty
    subst hty
    rfl

/-- Witness for C8 at concrete rejected inputs. -/
theorem scan_value_contract_witness :
    (Scan zeroID (.bytes [1, 2, 3])).2 = some (.invalidByteLength 3) ∧
      (Scan zeroID (.other "int")).2 = some (.unsupportedType "int") :=
  ⟨(scan_value_contract zeroID (.bytes [1, 2, 3])).2.1 [1, 2, 3] rfl (by decide),
   (scan_value_contract zeroID (.other "int")).2.2.1 "int" rfl⟩

/-- C10: `UnmarshalText` accepts every 20-character input over the
alphabet, including non-canonical strings whose last character carries
nonzero padding bits; decode silently discards those bits, so there is an
accepted string that `encode` does not reproduce. -/
theorem unmarshalText_accepts_noncanonical :
    (∀ id text, text.length = 20 → (∀ c ∈ text, c ∈ encBytes) →
        (UnmarshalText id text).2 = false) ∧
      ∃ s, s.length = 20 ∧ (∀ c ∈ s, c ∈ encBytes) ∧
        (UnmarshalText zeroID s).2 = false ∧
        encode (UnmarshalText zeroID s).1 ≠ s := by
  constructor
  · intro id text h1 h2
    exact (unmarshal_ok_iff id text).mpr ⟨h1, h2⟩
  · exact ⟨List.replicate 19 48 ++ [49], by decide, by decide, by decide, by decide⟩

/-- Witness for C10's universal part at a concrete non-canonical string. -/
theorem unmarshalText_accepts_noncanonical_witness :
    (UnmarshalText zeroID (List.replicate 19 48 ++ [49])).2 = false :=
  unmarshalText_accepts_noncanonical.1 zeroID (List.replicate 19 48 ++ [49])
    (by decide) (by decide)


/-- The concatenation identity behind C7, on raw bytes. -/
theorem val32_symbols_core (b0 b1 b2 b3 b4 b5 b6 b7 b8 b9 b10 b11 : Nat)
    (h0 : b0 < 256) (h1 : b1 < 256) (h2 : b2 < 256) (h3 : b3 < 256) (h4 : b4 < 256) (h5 : b5 < 256) (h6 : b6 < 256) (h7 : b7 < 256) (h8 : b8 < 256) (h9 : b9 < 256) (h10 : b10 < 256) (h11 : b11 < 256) :
    val 32 (symbols (ID.mk b0 b1 b2 b3 b4 b5 b6 b7 b8 b9 b10 b11)) =
      16 * val 256 (idBytes (ID.mk b0 b1 b2 b3 b4 b5 b6 b7 b8 b9 b10 b11)) := by
  have h2 : val 32 (symbols (ID.mk b0 b1 b2 b3 b4 b5 b6 b7 b8 b9 b10 b11)) =
      (b0 >>> 3) * 32 ^ 19 + ((((b1 >>> 6) &&& 31) ||| (((b0 <<< 2) % 256) &&& 31)) * 32 ^ 18 + (((b1 >>> 1) &&& 31) * 32 ^ 17 + ((((b2 >>> 4) &&& 31) ||| (((b1 <<< 4) % 256) &&& 31)) * 32 ^ 16 + (((b3 >>> 7) ||| (((b2 <<< 1) % 256) &&& 31)) * 32 ^ 15 + (((b3 >>> 2) &&& 31) * 32 ^ 14 + (((b4 >>> 5) ||| (((b3 <<< 3) % 256) &&& 31)) * 32 ^ 13 + ((b4 &&& 31) * 32 ^ 12 + ((b5 >>> 3) * 32 ^ 11 + ((((b6 >>> 6) &&& 31) ||| (((b5 <<< 2) % 256) &&& 31)) * 32 ^ 10 + (((b6 >>> 1) &&& 31) * 32 ^ 9 + ((((b7 >>> 4) &&& 31) ||| (((b6 <<< 4) % 256) &&& 31)) * 32 ^ 8 + (((b8 >>> 7) ||| (((b7 <<< 1) % 256) &&& 31)) * 32 ^ 7 + (((b8 >>> 2) &&& 31) * 32 ^ 6 + (((b9 >>> 5) ||| (((b8 <<< 3) % 256) &&& 31)) * 32 ^ 5 + ((b9 &&& 31) * 32 ^ 4 + ((b10 >>> 3) * 32 ^ 3 + ((((b11 >>> 6) &&& 31) ||| (((b10 <<< 2) % 256) &&& 31)) * 32 ^ 2 + (((b11 >>> 1) &&& 31) * 32 ^ 1 + ((((b11 <<< 4) % 256) &&& 31) * 32 ^ 0 + (0)))))))))))))))))))) := rfl
  have h3 : val 256 (idBytes (ID.mk b0 b1 b2 b3 b4 b5 b6 b7 b8 b9 b10 b11)) =
      b0 * 256 ^ 11 + (b1 * 256 ^ 10 + (b2 * 256 ^ 9 + (b3 * 256 ^ 8 + (b4 * 256 ^ 7 + (b5 * 256 ^ 6 + (b6 * 256 ^ 5 + (b7 * 256 ^ 4 + (b8 * 256 ^ 3 + (b9 * 256 ^ 2 + (b10 * 256 ^ 1 + (b11 * 256 ^ 0 + (0)))))))))))) := rfl
  rw [h2, h3]
  simp only [Nat.shiftLeft_eq, Nat.shiftRight_eq_div_pow, and_mask_eq_mod]
  rw [or_eq_add_left 2 (b1 / 2 ^ 6 % 32) (b0 * 2 ^ 2 % 256 % 32) (by omega) (by omega)]
  rw [or_eq_add_left 4 (b2 / 2 ^ 4 % 32) (b1 * 2 ^ 4 % 256 % 32) (by omega) (by omega)]
  rw [or_eq_add_left 1 (b3 / 2 ^ 7) (b2 * 2 ^ 1 % 256 % 32) (by omega) (by omega)]
  rw [or_eq_add_left 3 (b4 / 2 ^ 5) (b3 * 2 ^ 3 % 256 % 32) (by omega) (by omega)]
  rw [or_eq_add_left 2 (b6 / 2 ^ 6 % 32) (b5 * 2 ^ 2 % 256 % 32) (by omega) (by omega)]
  rw [or_eq_add_left 4 (b7 / 2 ^ 4 % 32) (b6 * 2 ^ 4 % 256 % 32) (by omega) (by omega)]
  rw [or_eq_add_left 1 (b8 / 2 ^ 7) (b7 * 2 ^ 1 % 256 % 32) (by omega) (by omega)]
  rw [or_eq_add_left 3 (b9 / 2 ^ 5) (b8 * 2 ^ 3 % 256 % 32) (by omega) (by omega)]
  rw [or_eq_add_left 2 (b11 / 2 ^ 6 % 32) (b10 * 2 ^ 2 % 256 % 32) (by omega) (by omega)]
  omega

/-! ### Lexicographic order and digit values (for C7) -/

/-- Inversion for `List.Lex` on two cons cells. -/
theorem lex_cons_inv {r : Nat → Nat → Prop} {a b : Nat} {l₁ l₂ : List Nat}
    (h : List.Lex r (a :: l₁) (b :: l₂)) : r a b ∨ (a = b ∧ List.Lex r l₁ l₂) := by
  cases h with
  | cons h' => exact Or.inr ⟨rfl, h'⟩
  | rel hr => exact Or.inl hr

/-- The value of a digit string is below `B ^ length`. -/
theorem val_lt (B : Nat) (hB : 0 < B) :
    ∀ l : List Nat, (∀ x ∈ l, x < B) → val B l < B ^ l.length
  | [], _ => by simp [val]
  | d :: ds, h => by
      have h1 := val_lt B hB ds (fun x hx => h x (List.mem_cons_of_mem _ hx))
      have h2 : d < B := h d (List.mem_cons_self _ _)
      calc val B (d :: ds) = d * B ^ ds.length + val B ds := rfl
        _ < d * B ^ ds.length + B ^ ds.length := Nat.add_lt_add_left h1 _
        _ = (d + 1) * B ^ ds.length := by ring
        _ ≤ B * B ^ ds.length := Nat.mul_le_mul_right _ (by omega)
        _ = B ^ (d :: ds).length := by
            rw [List.length_cons, pow_succ]
            ring

/-- A strictly smaller leading digit gives a strictly smaller value. -/
theorem val_head_mono (B : Nat) (hB : 0 < B) (x y : Nat) (xs ys : List Nat)
    (hlen : xs.length = ys.length) (hxs : ∀ a ∈ xs, a < B) (hxy : x < y) :
    x * B ^ ys.length + val B xs < y * B ^ ys.length + val B ys := by
  have h1 : val B xs < B ^ ys.length := hlen ▸ val_lt B hB xs hxs
  calc x * B ^ ys.length + val B xs
      < x * B ^ ys.length + B ^ ys.length := Nat.add_lt_add_left h1 _
    _ = (x + 1) * B ^ ys.length := by ring
    _ ≤ y * B ^ ys.length := Nat.mul_le_mul_right _ (by omega)
    _ ≤ y * B ^ ys.length + val B ys := Nat.le_add_right _ _

/-- On equal-length digit strings with digits below `B`, lexicographic
order is numeric order of the values. -/
theorem lex_iff_val_lt (B : Nat) (hB : 0 < B) :
    ∀ l₁ l₂ : List Nat, l₁.length = l₂.length →
      (∀ x ∈ l₁, x < B) → (∀ x ∈ l₂, x < B) →
      (List.Lex (fun a b : Nat => a < b) l₁ l₂ ↔ val B l₁ < val B l₂)
  | [], [], _, _, _ => by
      constructor
      · intro h
        exact absurd h (List.Lex.not_nil_right _ _)
      · intro h
        exact absurd h (by simp [val])
  | [], y :: ys, h, _, _ => by simp at h
  | x :: xs, [], h, _, _ => by simp at h
  | x :: xs, y :: ys, h, h₁, h₂ => by
      have hlen : xs.length = ys.length := by simpa using h
      have hxs : ∀ a ∈ xs, a < B := fun a ha => h₁ a (List.mem_cons_of_mem _ ha)
      have hys : ∀ a ∈ ys, a < B := fun a ha => h₂ a (List.mem_cons_of_mem _ ha)
      have ih := lex_iff_val_lt B hB xs ys hlen hxs hys
      have hvx : val B (x :: xs) = x * B ^ ys.length + val B xs := by
        rw [show val B (x :: xs) = x * B ^ xs.length + val B xs from rfl, hlen]
      have hvy : val B (y :: ys) = y * B ^ ys.length + val B ys := rfl
      constructor
      · intro hl
        rcases lex_cons_inv hl with hr | ⟨hxy, hl'⟩
        · rw [hvx, hvy]
          exact val_head_mono B hB x y xs ys hlen hxs hr
        · subst hxy
          rw [hvx, hvy]
          exact Nat.add_lt_add_left (ih.mp hl') _
      · intro hv
        rcases Nat.lt_trichotomy x y with hxy | hxy | hxy
        · exact List.Lex.rel hxy
        · subst hxy
          refine List.Lex.cons (ih.mpr ?_)
          rw [hvx, hvy] at hv
          exact Nat.lt_of_add_lt_add_left hv
        · exfalso
          have hgt := val_head_mono B hB y x ys xs hlen.symm hys hxy
          rw [hlen] at hgt
          rw [hvx, hvy] at hv
          omega

/-- On equal-length digit strings with digits below `B`, equal values mean
equal strings. -/
theorem val_eq_iff (B : Nat) (hB : 0 < B) :
    ∀ l₁ l₂ : List Nat, l₁.length = l₂.length →
      (∀ x ∈ l₁, x < B) → (∀ x ∈ l₂, x < B) →
      (val B l₁ = val B l₂ ↔ l₁ = l₂)
  | [], [], _, _, _ => by simp
  | [], y :: ys, h, _, _ => by simp at h
  | x :: xs, [], h, _, _ => by simp at h
  | x :: xs, y :: ys, h, h₁, h₂ => by
      have hlen : xs.length = ys.length := by simpa using h
      have hxs : ∀ a ∈ xs, a < B := fun a ha => h₁ a (List.mem_cons_of_mem _ ha)
      have hys : ∀ a ∈ ys, a < B := fun a ha => h₂ a (List.mem_cons_of_mem _ ha)
      have ih := val_eq_iff B hB xs ys hlen hxs hys
      have hvx : val B (x :: xs) = x * B ^ ys.length + val B xs := by
        rw [show val B (x :: xs) = x * B ^ xs.length + val B xs from rfl, hlen]
      have hvy : val B (y :: ys) = y * B ^ ys.length + val B ys := rfl
      constructor
      · intro hv
        rw [hvx, hvy] at hv
        have hxy : x = y := by
          by_contra hne
          rcases Nat.lt_or_ge x y with hlt | hge
          · exact absurd hv (Nat.ne_of_lt (val_head_mono B hB x y xs ys hlen hxs hlt))
          · have hgt : y < x := by omega
            have hm := val_head_mono B hB y x ys xs hlen.symm hys hgt
            rw [hlen] at hm
            exact absurd hv.symm (Nat.ne_of_lt hm)
        subst hxy
        have hv' : val B xs = val B ys := Nat.add_left_cancel hv
        rw [ih.mp hv']
      · intro he
        rw [he]

/-- Mapping a strictly monotone symbol-to-character table across
equal-alphabet digit strings preserves lexicographic order. -/
theorem lex_map_iff (f : Nat → Nat)
    (hf : ∀ a b : Nat, a < 32 → b < 32 → (f a < f b ↔ a < b)) :
    ∀ l₁ l₂ : List Nat, (∀ x ∈ l₁, x < 32) → (∀ x ∈ l₂, x < 32) →
      (List.Lex (fun a b : Nat => a < b) (l₁.map f) (l₂.map f) ↔
        List.Lex (fun a b : Nat => a < b) l₁ l₂)
  | [], [], _, _ => by
      constructor
      · intro hh
        exact absurd hh (List.Lex.not_nil_right _ _)
      · intro hh
        exact absurd hh (List.Lex.not_nil_right _ _)
  | [], y :: ys, _, _ => by
      simp only [List.map_nil, List.map_cons]
      exact ⟨fun _ => List.Lex.nil, fun _ => List.Lex.nil⟩
  | x :: xs, [], _, _ => by
      simp only [List.map_nil, List.map_cons]
      constructor
      · intro hh
        exact absurd hh (List.Lex.not_nil_right _ _)
      · intro hh
        exact absurd hh (List.Lex.not_nil_right _ _)
  | x :: xs, y :: ys, h₁, h₂ => by
      have hx := h₁ x (List.mem_cons_self _ _)
      have hy := h₂ y (List.mem_cons_self _ _)
      have hxs : ∀ a ∈ xs, a < 32 := fun a ha => h₁ a (List.mem_cons_of_mem _ ha)
      have hys : ∀ a ∈ ys, a < 32 := fun a ha => h₂ a (List.mem_cons_of_mem _ ha)
      have ih := lex_map_iff f hf xs ys hxs hys
      have hinj : f x = f y → x = y := by
        intro hfe
        rcases Nat.lt_trichotomy x y with hxy | hxy | hxy
        · have := (hf x y hx hy).mpr hxy
          omega
        · exact hxy
        · have := (hf y x hy hx).mpr hxy
          omega
      simp only [List.map_cons]
      constructor
      · intro hl
        rcases lex_cons_inv hl with hr | ⟨hfe, hl'⟩
        · exact List.Lex.rel ((hf x y hx hy).mp hr)
        · have hxe := hinj hfe
          subst hxe
          exact List.Lex.cons (ih.mp hl')
      · intro hl
        rcases lex_cons_inv hl with hr | ⟨hxe, hl'⟩
        · exact List.Lex.rel ((hf x y hx hy).mpr hr)
        · subst hxe
          exact List.Lex.cons (ih.mpr hl')

/-- Mapping an injective-on-the-alphabet table across digit strings
reflects equality. -/
theorem map_eq_iff (f : Nat → Nat)
    (hf : ∀ a b : Nat, a < 32 → b < 32 → (f a < f b ↔ a < b)) :
    ∀ l₁ l₂ : List Nat, (∀ x ∈ l₁, x < 32) → (∀ x ∈ l₂, x < 32) →
      (l₁.map f = l₂.map f ↔ l₁ = l₂)
  | [], [], _, _ => by simp
  | [], y :: ys, _, _ => by simp
  | x :: xs, [], _, _ => by simp
  | x :: xs, y :: ys, h₁, h₂ => by
      have hx := h₁ x (List.mem_cons_self _ _)
      have hy := h₂ y (List.mem_cons_self _ _)
      have hxs : ∀ a ∈ xs, a < 32 := fun a ha => h₁ a (List.mem_cons_of_mem _ ha)
      have hys : ∀ a ∈ ys, a < 32 := fun a ha => h₂ a (List.mem_cons_of_mem _ ha)
      have ih := map_eq_iff f hf xs ys hxs hys
      have hinj : f x = f y → x = y := by
        intro hfe
        rcases Nat.lt_trichotomy x y with hxy | hxy | hxy
        · have := (hf x y hx hy).mpr hxy
          omega
        · exact hxy
        · have := (hf y x hy hx).mpr hxy
          omega
      simp only [List.map_cons, List.cons.injEq]
      constructor
      · rintro ⟨hfe, hmap⟩
        exact ⟨hinj hfe, ih.mp hmap⟩
      · rintro ⟨rfl, rfl⟩
        exact ⟨rfl, rfl⟩

/-- The character table is strictly monotone on the 32 symbol values. -/
theorem encByte_mono {a b : Nat} (ha : a < 32) (hb : b < 32) :
    encByte a < encByte b ↔ a < b := by
  have hv : ∀ x y : Fin 32, (encByte x.val < encByte y.val ↔ x.val < y.val) := by decide
  exact hv ⟨a, ha⟩ ⟨b, hb⟩

/-- Every symbol produced by `encode` is a 5-bit value. -/
theorem symbols_lt_32 (id : ID) (h : validBytes id) : ∀ x ∈ symbols id, x < 32 := by
  obtain ⟨h0, h1, h2, h3, h4, h5, h6, h7, h8, h9, h10, h11⟩ := h
  intro x hx
  simp only [symbols, List.mem_cons, List.not_mem_nil, or_false] at hx
  rcases hx with rfl | rfl | rfl | rfl | rfl | rfl | rfl | rfl | rfl | rfl | rfl | rfl |
    rfl | rfl | rfl | rfl | rfl | rfl | rfl | rfl
  all_goals first
    | (rw [Nat.shiftRight_eq_div_pow]; omega)
    | (rw [and_mask_eq_mod]; omega)
    | (exact lor_lt_two_pow (n := 5)
        (by rw [Nat.shiftRight_eq_div_pow, and_mask_eq_mod]; omega)
        (by rw [and_mask_eq_mod]; omega))
    | (exact lor_lt_two_pow (n := 5)
        (by rw [Nat.shiftRight_eq_div_pow]; omega)
        (by rw [and_mask_eq_mod]; omega))

/-- The bytes of a valid id are below 256, as a membership statement. -/
theorem idBytes_lt_256 (id : ID) (h : validBytes id) : ∀ x ∈ idBytes id, x < 256 := by
  obtain ⟨h0, h1, h2, h3, h4, h5, h6, h7, h8, h9, h10, h11⟩ := h
  intro x hx
  simp only [idBytes, List.mem_cons, List.not_mem_nil, or_false] at hx
  rcases hx with rfl | rfl | rfl | rfl | rfl | rfl | rfl | rfl | rfl | rfl | rfl | rfl
  all_goals omega

/-- `encode` is the character table applied to the symbol values. -/
theorem encode_eq_map (id : ID) : encode id = (symbols id).map encByte := rfl

/-- The symbol string of an id reads, as a base-32 number, as 16 times the
byte string read as a base-256 number (the 4 padding bits are zero). -/
theorem val32_symbols (id : ID) (h : validBytes id) :
    val 32 (symbols id) = 16 * val 256 (idBytes id) := by
  obtain ⟨h0, h1, h2, h3, h4, h5, h6, h7, h8, h9, h10, h11⟩ := h
  cases id with
  | mk b0 b1 b2 b3 b4 b5 b6 b7 b8 b9 b10 b11 =>
      exact val32_symbols_core b0 b1 b2 b3 b4 b5 b6 b7 b8 b9 b10 b11
        h0 h1 h2 h3 h4 h5 h6 h7 h8 h9 h10 h11

/-- C7: the encoding is order-preserving: for all byte-valued identifiers,
x precedes-or-equals y in byte-lexicographic order iff encode x
precedes-or-equals encode y in lexicographic order of the 20-character
strings. -/
theorem encode_order_preserving (x y : ID) (hx : validBytes x) (hy : validBytes y) :
    (List.Lex (fun a b : Nat => a < b) (idBytes x) (idBytes y) ∨ idBytes x = idBytes y) ↔
      (List.Lex (fun a b : Nat => a < b) (encode x) (encode y) ∨
        encode x = encode y) := by
  have hbx := idBytes_lt_256 x hx
  have hby := idBytes_lt_256 y hy
  have hsx := symbols_lt_32 x hx
  have hsy := symbols_lt_32 y hy
  have hlenb : (idBytes x).length = (idBytes y).length := rfl
  have hlens : (symbols x).length = (symbols y).length := rfl
  have h1 : List.Lex (fun a b : Nat => a < b) (idBytes x) (idBytes y) ↔
      val 256 (idBytes x) < val 256 (idBytes y) :=
    lex_iff_val_lt 256 (by omega) _ _ hlenb hbx hby
  have h2 : idBytes x = idBytes y ↔ val 256 (idBytes x) = val 256 (idBytes y) :=
    (val_eq_iff 256 (by omega) _ _ hlenb hbx hby).symm
  have h3 : List.Lex (fun a b : Nat => a < b) (encode x) (encode y) ↔
      List.Lex (fun a b : Nat => a < b) (symbols x) (symbols y) := by
    rw [encode_eq_map, encode_eq_map]
    exact lex_map_iff encByte (fun a b ha hb => encByte_mono ha hb) _ _ hsx hsy
  have h4 : encode x = encode y ↔ symbols x = symbols y := by
    rw [encode_eq_map, encode_eq_map]
    exact map_eq_iff encByte (fun a b ha hb => encByte_mono ha hb) _ _ hsx hsy
  have h5 : List.Lex (fun a b : Nat => a < b) (symbols x) (symbols y) ↔
      val 32 (symbols x) < val 32 (symbols y) :=
    lex_iff_val_lt 32 (by omega) _ _ hlens hsx hsy
  have h6 : symbols x = symbols y ↔ val 32 (symbols x) = val 32 (symbols y) :=
    (val_eq_iff 32 (by omega) _ _ hlens hsx hsy).symm
  have h7 := val32_symbols x hx
  have h8 := val32_symbols y hy
  rw [h1, h2, h3, h4, h5, h6, h7, h8]
  omega

/-- Witness for C7 at two concrete identifiers. -/
theorem encode_order_preserving_witness :
    (List.Lex (fun a b : Nat => a < b) (idBytes zeroID)
        (idBytes ⟨0, 0, 0, 0, 0, 0, 0, 0, 0, 0, 0, 1⟩) ∨
      idBytes zeroID = idBytes ⟨0, 0, 0, 0, 0, 0, 0, 0, 0, 0, 0, 1⟩) ↔
      (List.Lex (fun a b : Nat => a < b) (encode zeroID)
          (encode ⟨0, 0, 0, 0, 0, 0, 0, 0, 0, 0, 0, 1⟩) ∨
        encode zeroID = encode ⟨0, 0, 0, 0, 0, 0, 0, 0, 0, 0, 0, 1⟩) :=
  encode_order_preserving zeroID ⟨0, 0, 0, 0, 0, 0, 0, 0, 0, 0, 0, 1⟩
    (by decide) (by decide)

end Xid
